/-
Verification of the TTFNet head core (mmdet/models/anchor_heads/ttf_head.py):
target generation (TTFTargetGenerator), the loss computer's cached base
location grid (TTFLoss), and two-stage top-k extraction (TTFHead._topk).

The tensors of the source are embedded as total functions from integer
indices to exact rationals.  Floating point real-valued primitives that no
claim depends on numerically (the gaussian kernel values of `gaussian_2d`,
i.e. exp with machine-epsilon thresholding, and the `log`/`sqrt` area
transforms) are abstracted as parameters of the configuration, so every
theorem below holds for all instantiations of them; everything else is
translated from the source line by line.  Division of floats by zero
(which in the source produces non-finite values, NaN in the reachable
cases) is embedded as `Option ℚ` with `none` for the non-finite result.
Python/torch indexing semantics (negative index wrap-around, slice
clamping, broadcast shape errors) are embedded explicitly.
-/
import Mathlib

set_option maxRecDepth 100000

namespace TTFNet

/-- A 2d float tensor, embedded as a total function from (row, col) to ℚ. -/
abbrev Grid := ℤ → ℤ → ℚ

/-- A 3d float tensor (channel, row, col). -/
abbrev CGrid := ℤ → ℤ → ℤ → ℚ

/-- A 3d float tensor whose cells may hold a non-finite float value
(`none`, produced by dividing by zero). -/
abbrev WGrid := ℤ → ℤ → ℤ → Option ℚ

/-- Python slice endpoint normalization on an axis of length `n`:
negative endpoints count from the end (clamped below at 0), nonnegative
endpoints are clamped above at `n`. -/
def clipLo (n : ℕ) (i : ℤ) : ℤ := if i < 0 then max 0 ((n : ℤ) + i) else min i n

/-- Number of indices selected by the Python slice `[lo:hi]` on an axis of
length `n`. -/
def sliceLen (n : ℕ) (lo hi : ℤ) : ℤ := max 0 (clipLo n hi - clipLo n lo)

/-- Membership of index `i` in the Python slice `[lo:hi]` of an axis of
length `n`. -/
def inSliceB (n : ℕ) (lo hi i : ℤ) : Bool := decide (clipLo n lo ≤ i ∧ i < clipLo n hi)

/-- Truncation toward zero, the conversion performed by `.to(torch.int)` /
`.int()` on a float tensor. -/
def truncToInt (q : ℚ) : ℤ := if 0 ≤ q then ⌊q⌋ else ⌈q⌉

/-- Round half to even, the rounding mode of `torch.round`. -/
def rndEven (q : ℚ) : ℤ :=
  if q - ⌊q⌋ < 1/2 then ⌊q⌋
  else if 1/2 < q - ⌊q⌋ then ⌊q⌋ + 1
  else if ⌊q⌋ % 2 = 0 then ⌊q⌋ else ⌊q⌋ + 1

/-- Float division whose zero-denominator case yields a non-finite value
(`none`); in the reachable case of the target generator the numerator is 0
there as well, so the float result is NaN. -/
def qdiv (a b : ℚ) : Option ℚ := if b = 0 then none else some (a / b)

/-- torch.clamp with both a `min` and a `max` bound. -/
def clampQ (q lo hi : ℚ) : ℚ := min (max q lo) hi

/-- The guard `min(masked_gaussian.shape) > 0 and min(masked_heatmap.shape) > 0`
of `draw_truncate_gaussian`: both boundary-clipped overlap windows (on the
grid and on the kernel) are nonempty on both axes. -/
def gaussGuard (height width : ℕ) (x y h_radius w_radius : ℤ) : Bool :=
  let left := min x w_radius
  let right := min ((width : ℤ) - x) (w_radius + 1)
  let top := min y h_radius
  let bottom := min ((height : ℤ) - y) (h_radius + 1)
  decide (0 < sliceLen height (y - top) (y + bottom)) &&
  decide (0 < sliceLen width (x - left) (x + right)) &&
  decide (0 < sliceLen ((2 * h_radius + 1).toNat) (h_radius - top) (h_radius + bottom)) &&
  decide (0 < sliceLen ((2 * w_radius + 1).toNat) (w_radius - left) (w_radius + right))

/-- Embedding of `TTFTargetGenerator.draw_truncate_gaussian`.  The kernel
built by `gaussian_2d((2*h_radius+1, 2*w_radius+1), ...)` is passed in as
the function `gaussian` on kernel coordinates (the kernel axis of a
negative radius is empty, length `(2*r+1).toNat = 0`, exactly as the numpy
`ogrid` range is).  Inside the clipped overlap window the grid is combined
with the `k`-scaled kernel by elementwise `torch.max` (written through the
slice view `masked_heatmap`); with an empty overlap on either axis the
grid is returned unchanged. -/
def draw_truncate_gaussian (height width : ℕ) (gaussian : ℤ → ℤ → ℚ)
    (heatmap : Grid) (x y h_radius w_radius : ℤ) (k : ℚ) : Grid :=
  let left := min x w_radius
  let right := min ((width : ℤ) - x) (w_radius + 1)
  let top := min y h_radius
  let bottom := min ((height : ℤ) - y) (h_radius + 1)
  let kh : ℕ := (2 * h_radius + 1).toNat
  let kw : ℕ := (2 * w_radius + 1).toNat
  if gaussGuard height width x y h_radius w_radius then
    fun i j =>
      if inSliceB height (y - top) (y + bottom) i && inSliceB width (x - left) (x + right) j then
        max (heatmap i j)
          (gaussian (clipLo kh (h_radius - top) + (i - clipLo height (y - top)))
                    (clipLo kw (w_radius - left) + (j - clipLo width (x - left))) * k)
      else heatmap i j
  else heatmap

/-- A ground-truth bounding box (left, top, right, bottom) in original
image pixel coordinates. -/
structure BBox where
  x1 : ℚ
  y1 : ℚ
  x2 : ℚ
  y2 : ℚ
deriving DecidableEq

/-- Configuration of `TTFTargetGenerator`.  `transform` abstracts the
float `log` / `sqrt` / identity transform applied by `wh_area_process` to
the box areas (the `norm` mode also computes plain areas for the sort and
is flagged by `areaProcessIsNorm`); `gaussKer` abstracts the float kernel
`gaussian_2d((2*h_radius+1, 2*w_radius+1), w/6, h/6)` as a function of the
two radii and the kernel coordinates.  Every theorem holds for all
instantiations of these two fields. -/
structure GenCfg where
  num_fg : ℕ
  wh_agnostic : Bool
  wh_heatmap : Bool
  areaProcessIsNorm : Bool
  transform : ℚ → ℚ
  gaussKer : ℤ → ℤ → ℤ → ℤ → ℚ
  hm_center_ratio : ℚ
  center_ratio : ℚ
  down_ratio : ℕ

/-- wh_planes = 4 if wh_agnostic else 4 * num_fg. -/
def GenCfg.wh_planes (c : GenCfg) : ℕ := if c.wh_agnostic then 4 else 4 * c.num_fg

/-- Modelled from the spec: `bbox_areas` (mmdet.core, not under src/) —
"box area (width×height)". -/
def bboxArea (b : BBox) : ℚ := (b.x2 - b.x1) * (b.y2 - b.y1)

/-- One entry of `boxes_areas_log`: the (possibly log/sqrt-transformed)
area metric used as the descending sort key. -/
def areaKey (c : GenCfg) (b : BBox) : ℚ := c.transform (bboxArea b)

/-- One entry of `boxes_area_topk_log` after the `norm` override
(`boxes_area_topk_log[:] = 1.`): the area-weight scalar of a box. -/
def areaWeight (c : GenCfg) (b : BBox) : ℚ :=
  if c.areaProcessIsNorm then 1 else areaKey c b

/-- feat_hs entry: height of the box scaled by 1/down_ratio and clamped to
[0, output_h - 1] on both ends (lines 385-389). -/
def featH (c : GenCfg) (H : ℕ) (b : BBox) : ℚ :=
  clampQ (b.y2 / (c.down_ratio : ℚ)) 0 ((H : ℚ) - 1)
    - clampQ (b.y1 / (c.down_ratio : ℚ)) 0 ((H : ℚ) - 1)

/-- feat_ws entry (lines 385-389). -/
def featW (c : GenCfg) (W : ℕ) (b : BBox) : ℚ :=
  clampQ (b.x2 / (c.down_ratio : ℚ)) 0 ((W : ℚ) - 1)
    - clampQ (b.x1 / (c.down_ratio : ℚ)) 0 ((W : ℚ) - 1)

/-- h_radiuses entry `(feat_hs * hm_center_ratio).int()`. -/
def hRadius (c : GenCfg) (H : ℕ) (b : BBox) : ℤ :=
  truncToInt (featH c H b * c.hm_center_ratio)

/-- w_radiuses entry `(feat_ws * hm_center_ratio).int()`. -/
def wRadius (c : GenCfg) (W : ℕ) (b : BBox) : ℤ :=
  truncToInt (featW c W b * c.hm_center_ratio)

/-- ct_ints x component: the original-scale box center divided by
down_ratio, truncated to int (lines 395-397). -/
def ctX (c : GenCfg) (b : BBox) : ℤ := truncToInt (((b.x1 + b.x2) / 2) / (c.down_ratio : ℚ))

/-- ct_ints y component (lines 395-397). -/
def ctY (c : GenCfg) (b : BBox) : ℤ := truncToInt (((b.y1 + b.y2) / 2) / (c.down_ratio : ℚ))

/-- r1 = (1 - center_ratio) / 2 (line 391). -/
def shrinkR1 (c : GenCfg) : ℚ := (1 - c.center_ratio) / 2

/-- Modelled from the spec: `calc_region`
(mmdet.core.anchor.guided_anchor_target, not under src/) — "shrinks the
box toward its center by removing a fraction r from each side along both
axes", returned in the input coordinate space. -/
def calcRegion (r : ℚ) (b : BBox) : BBox :=
  ⟨(1 - r) * b.x1 + r * b.x2, (1 - r) * b.y1 + r * b.y2,
   r * b.x1 + (1 - r) * b.x2, r * b.y1 + (1 - r) * b.y2⟩

/-- ctr_x1s entry: `torch.round(x / down_ratio).int()` then
`torch.clamp(x, max=output_w - 1)` — an upper clamp only (lines 403-409). -/
def ctrX1 (c : GenCfg) (W : ℕ) (b : BBox) : ℤ :=
  min (rndEven ((calcRegion (shrinkR1 c) b).x1 / (c.down_ratio : ℚ))) ((W : ℤ) - 1)

/-- ctr_x2s entry (lines 403-409). -/
def ctrX2 (c : GenCfg) (W : ℕ) (b : BBox) : ℤ :=
  min (rndEven ((calcRegion (shrinkR1 c) b).x2 / (c.down_ratio : ℚ))) ((W : ℤ) - 1)

/-- ctr_y1s entry (lines 403-409). -/
def ctrY1 (c : GenCfg) (H : ℕ) (b : BBox) : ℤ :=
  min (rndEven ((calcRegion (shrinkR1 c) b).y1 / (c.down_ratio : ℚ))) ((H : ℤ) - 1)

/-- ctr_y2s entry (lines 403-409). -/
def ctrY2 (c : GenCfg) (H : ℕ) (b : BBox) : ℤ :=
  min (rndEven ((calcRegion (shrinkR1 c) b).y2 / (c.down_ratio : ℚ))) ((H : ℤ) - 1)

/-- The uint8 mask built by
`box_target_inds[ctr_y1:ctr_y2 + 1, ctr_x1:ctr_x2 + 1] = 1` on a zeroed
grid, with Python slice semantics (negative bounds wrap). -/
def regionMask (height width : ℕ) (y1 y2 x1 x2 : ℤ) : ℤ → ℤ → Bool :=
  fun i j => inSliceB height y1 (y2 + 1) i && inSliceB width x1 (x2 + 1) j

/-- The scratch grid of one box: `fake_heatmap.zero_()` followed by
`draw_truncate_gaussian(fake_heatmap, ct_ints[k], h_radius, w_radius)`. -/
def fakeHm (c : GenCfg) (H W : ℕ) (b : BBox) : Grid :=
  draw_truncate_gaussian H W (c.gaussKer (hRadius c H b) (wRadius c W b))
    (fun _ _ => 0) (ctX c b) (ctY c b) (hRadius c H b) (wRadius c W b) 1

/-- box_target_inds of one box: `fake_heatmap > 0` when wh_heatmap is
enabled, else the rounded/clamped center-shrink region (lines 421-425). -/
def boxMask (c : GenCfg) (H W : ℕ) (b : BBox) : ℤ → ℤ → Bool :=
  if c.wh_heatmap then fun i j => decide (0 < fakeHm c H W b i j)
  else regionMask H W (ctrY1 c H b) (ctrY2 c H b) (ctrX1 c W b) (ctrX2 c W b)

/-- `fake_heatmap[box_target_inds].sum()`, the scratch-gaussian mass
`ct_div` over the masked cells of an H×W grid. -/
def maskSum (H W : ℕ) (mask : ℤ → ℤ → Bool) (g : Grid) : ℚ :=
  ∑ i ∈ Finset.range H, ∑ j ∈ Finset.range W,
    if mask (i : ℤ) (j : ℤ) then g (i : ℤ) (j : ℤ) else 0

/-- Sum of a weight-map channel over the masked cells of an H×W grid,
reading non-finite cells as 0. -/
def wmaskSum (H W : ℕ) (mask : ℤ → ℤ → Bool) (g : ℤ → ℤ → Option ℚ) : ℚ :=
  ∑ i ∈ Finset.range H, ∑ j ∈ Finset.range W,
    if mask (i : ℤ) (j : ℤ) then (g (i : ℤ) (j : ℤ)).getD 0 else 0

/-- Component `d` of `gt_boxes[k]` (the broadcast source
`gt_boxes[k][:, None]`). -/
def bcoord (b : BBox) (d : ℤ) : ℚ :=
  if d = 0 then b.x1 else if d = 1 then b.y1 else if d = 2 then b.x2 else b.y2

/-- torch integer indexing of an axis of length `n`: negative indices in
[-n, -1] wrap around, anything else out of [0, n) raises. -/
def tensorIndex (n : ℕ) (i : ℤ) : Except String ℕ :=
  if 0 ≤ i ∧ i < (n : ℤ) then .ok i.toNat
  else if -(n : ℤ) ≤ i ∧ i < 0 then .ok (i + n).toNat
  else .error "index out of range"

/-- The per-image target maps (heatmap, box_target, wh_weight). -/
structure TargetMaps where
  heatmap : CGrid
  box_target : CGrid
  wh_weight : WGrid

/-- The freshly allocated per-image maps: zero heatmap, box_target filled
with the sentinel -1, zero weight map (lines 366-369). -/
def initMaps : TargetMaps :=
  ⟨fun _ _ _ => 0, fun _ _ _ => -1, fun _ _ _ => some 0⟩

/-- The box_target write of one box (lines 427-430).  In the class-aware
branch the channel slice is `(cls_id*4):((cls_id+1)*4)` with Python slice
normalization; the broadcast of the (4, 1) source `gt_boxes[k][:, None]`
requires the normalized slice to select exactly 4 channels, otherwise
torch raises a shape-mismatch error (as it does for `cls_id = -1`, whose
slice `-4:0` is empty). -/
def boxWrite (c : GenCfg) (bt : CGrid) (mask : ℤ → ℤ → Bool) (cls_id : ℤ) (b : BBox) :
    Except String CGrid :=
  if c.wh_agnostic then
    .ok fun ch i j =>
      if 0 ≤ ch ∧ ch < (c.wh_planes : ℤ) ∧ mask i j = true then bcoord b ch else bt ch i j
  else
    let lo := clipLo c.wh_planes (4 * cls_id)
    let hi := clipLo c.wh_planes (4 * cls_id + 4)
    if hi - lo = 4 then
      .ok fun ch i j =>
        if lo ≤ ch ∧ ch < hi ∧ mask i j = true then bcoord b (ch - lo) else bt ch i j
    else .error "shape mismatch in box_target write"

/-- One iteration of the per-box loop (lines 412-438) on box `b` with
label `label` and area-weight scalar `w`: draw the scratch gaussian,
max-combine it into the heatmap channel `cls_id = label - 1`, write the
box coordinates into the box_target channel slice over the mask, and
write `local_heatmap * w / ct_div` into the weight channel over the mask
(the division is performed unconditionally; `qdiv` records the non-finite
value produced when `ct_div = 0`). -/
def stepBox (c : GenCfg) (H W : ℕ) (st : TargetMaps) (b : BBox) (label : ℤ) (w : ℚ) :
    Except String TargetMaps :=
  let cls_id : ℤ := label - 1
  match tensorIndex c.num_fg cls_id with
  | .error e => .error e
  | .ok hmIdx =>
    let fake := fakeHm c H W b
    let heatmap' : CGrid := fun ch i j =>
      if ch = (hmIdx : ℤ) then max (st.heatmap ch i j) (fake i j) else st.heatmap ch i j
    let mask := boxMask c H W b
    match boxWrite c st.box_target mask cls_id b with
    | .error e => .error e
    | .ok bt' =>
      let S := maskSum H W mask fake
      match tensorIndex (c.wh_planes / 4) (if c.wh_agnostic then 0 else cls_id) with
      | .error e => .error e
      | .ok wIdx =>
        .ok ⟨heatmap', bt', fun ch i j =>
          if ch = (wIdx : ℤ) ∧ mask i j = true then qdiv (fake i j * w) S
          else st.wh_weight ch i j⟩

/-- The value `stepBox` returns on its non-error path (see
`stepBox_ok_of_valid_label`), with the wrapped indices written out for a
label in [1, num_fg]. -/
def stepBoxOut (c : GenCfg) (H W : ℕ) (st : TargetMaps) (b : BBox) (label : ℤ) (w : ℚ) :
    TargetMaps :=
  let cls : ℤ := label - 1
  let fake := fakeHm c H W b
  let mask := boxMask c H W b
  let S := maskSum H W mask fake
  let lo : ℤ := if c.wh_agnostic then 0 else 4 * cls
  { heatmap := fun ch i j =>
      if ch = cls then max (st.heatmap ch i j) (fake i j) else st.heatmap ch i j
    box_target := fun ch i j =>
      if lo ≤ ch ∧ ch < lo + 4 ∧ mask i j = true then bcoord b (ch - lo) else st.box_target ch i j
    wh_weight := fun ch i j =>
      if ch = (if c.wh_agnostic then 0 else cls) ∧ mask i j = true then qdiv (fake i j * w) S
      else st.wh_weight ch i j }

/-- The per-box loop over the sorted (box, label, area-weight) triples. -/
def processBoxes (c : GenCfg) (H W : ℕ) : TargetMaps → List (BBox × ℤ × ℚ) →
    Except String TargetMaps
  | st, [] => .ok st
  | st, (b, l, w) :: rest =>
    match stepBox c H W st b l w with
    | .error e => .error e
    | .ok st' => processBoxes c H W st' rest

/-- Stable insertion of `x` into a descending-by-key list, before the
first strictly smaller key. -/
def insertDescBy {α : Type} (key : α → ℚ) (x : α) : List α → List α
  | [] => [x]
  | y :: ys => if key y < key x then x :: y :: ys else y :: insertDescBy key x ys

/-- Descending stable sort by a rational key — the order produced by
`torch.topk(keys, keys.size(0))` (largest first; tie order between equal
keys is unspecified in torch, fixed here as input order). -/
def sortDescBy {α : Type} (key : α → ℚ) : List α → List α
  | [] => []
  | x :: xs => insertDescBy key x (sortDescBy key xs)

/-- Embedding of `TTFTargetGenerator.target_single_image`: sort the boxes
descending by the area metric with labels reordered identically, compute
the area-weight scalars (all 1 in `norm` mode), then run the per-box loop
on the freshly allocated maps. -/
def target_single_image (c : GenCfg) (gt_boxes : List BBox) (gt_labels : List ℤ)
    (output_h output_w : ℕ) : Except String TargetMaps :=
  let sorted := sortDescBy (fun p => areaKey c p.1) (gt_boxes.zip gt_labels)
  processBoxes c output_h output_w initMaps
    (sorted.map (fun p => (p.1, p.2, areaWeight c p.1)))

/-- The part of an image's meta dict that `TTFTargetGenerator.__call__`
reads: `pad_shape[0]` (padded height) and `pad_shape[1]` (padded width). -/
structure ImgMeta where
  pad_h : ℕ
  pad_w : ℕ

/-- Embedding of `TTFTargetGenerator.__call__`: the feature shape is
derived from `img_metas[0]['pad_shape']` alone (integer division by
down_ratio), and `target_single_image` is mapped over the per-image boxes
and labels with that single shape (`multi_apply`); stacking the per-image
results into batch tensors keeps the per-image contents unchanged and is
left as the returned list. -/
def targetGeneratorCall (c : GenCfg) (gt_boxes : List (List BBox))
    (gt_labels : List (List ℤ)) (img_metas : List ImgMeta) :
    Except String (List TargetMaps) :=
  match img_metas with
  | [] => .error "img_metas is empty"
  | m :: _ =>
    (gt_boxes.zip gt_labels).mapM
      (fun p => target_single_image c p.1 p.2 (m.pad_h / c.down_ratio) (m.pad_w / c.down_ratio))

/-- The cached `base_loc` grid of `TTFLoss`.  Its tensor content is fully
determined by the shape it was built with: `shift_x`/`shift_y` are
`arange(0, (dim - 1) * down_ratio + 1, down_ratio)` meshgrids, so the cell
(i, j) holds (j * step, i * step); `locX`/`locY` below give those values
and `rows`/`cols` record the extent, which is all the claims need. -/
structure BaseLoc where
  rows : ℕ
  cols : ℕ
  step : ℕ
deriving DecidableEq

/-- x coordinate stored at cell (i, j) of a base location grid. -/
def BaseLoc.locX (g : BaseLoc) (_i j : ℕ) : ℚ := j * g.step

/-- y coordinate stored at cell (i, j) of a base location grid. -/
def BaseLoc.locY (g : BaseLoc) (i _j : ℕ) : ℚ := i * g.step

/-- The grid built at lines 511-517 from the current (H, W) and the
configured down_ratio. -/
def buildBaseLoc (down H W : ℕ) : BaseLoc := ⟨H, W, down⟩

/-- One invocation's cache interaction (lines 510-517): the grid is built
only when the cache is `None`; otherwise the cached grid is used as-is,
with no comparison against the current (H, W).  Returns the grid used by
this invocation and the cache state after it. -/
def lossBaseLoc (down : ℕ) (st : Option BaseLoc) (H W : ℕ) : BaseLoc × Option BaseLoc :=
  match st with
  | none => (buildBaseLoc down H W, some (buildBaseLoc down H W))
  | some g => (g, some g)

/-- The grids used by a sequence of loss invocations with the given
predicted-heatmap shapes, threading the cache. -/
def lossBaseLocSeq (down : ℕ) (st : Option BaseLoc) : List (ℕ × ℕ) → List BaseLoc
  | [] => []
  | (H, W) :: rest =>
    (lossBaseLoc down st H W).1 :: lossBaseLocSeq down (lossBaseLoc down st H W).2 rest

/-- torch.topk over a flat list of scores: the (index, value) pairs of the
k largest entries, values in descending order (torch leaves the order of
equal values unspecified; input order is used here). -/
def topkPairs (l : List ℚ) (k : ℕ) : List (ℕ × ℚ) :=
  (sortDescBy (fun p => p.2) l.enum).take k

/-- Stage 1 of `TTFHead._topk`: per class, the top-k cells
(`torch.topk(scores.view(batch, cat, -1), topk)`) with the flat index
reduced mod height*width (`topk_inds % (height * width)`). -/
def ttfPerCls (scores : List (List ℚ)) (hw k : ℕ) : List (List (ℕ × ℚ)) :=
  scores.map (fun cl => (topkPairs cl k).map (fun p => (p.1 % hw, p.2)))

/-- The per-class top-k scores flattened class-major
(`topk_scores.view(batch, -1)`). -/
def ttfFlatVals (scores : List (List ℚ)) (hw k : ℕ) : List ℚ :=
  ((ttfPerCls scores hw k).map (fun pc => pc.map Prod.snd)).flatten

/-- The per-class top-k flat indices flattened class-major
(`topk_inds.view(batch, -1, 1)`), the gather source. -/
def ttfFlatInds (scores : List (List ℚ)) (hw k : ℕ) : List ℕ :=
  ((ttfPerCls scores hw k).map (fun pc => pc.map Prod.fst)).flatten

/-- Embedding of `TTFHead._topk` for one image: stage 2 takes the global
top k over the flattened per-class candidates, recovers the class as
`topk_ind / topk`, gathers the spatial index through `topk_ind`, and
derives y = ind / width, x = ind % width.  Each returned tuple is
(score, flat spatial index, class, y, x). -/
def ttfTopk (scores : List (List ℚ)) (hw width k : ℕ) :
    List (ℚ × ℕ × ℕ × ℕ × ℕ) :=
  (topkPairs (ttfFlatVals scores hw k) k).map (fun p =>
    (p.2, ((ttfFlatInds scores hw k).get? p.1).getD 0, p.1 / k,
     ((ttfFlatInds scores hw k).get? p.1).getD 0 / width,
     ((ttfFlatInds scores hw k).get? p.1).getD 0 % width))

/-- The state after processing box `bFirst` and then box `bSecond` (both
with label `l`) from fresh per-image maps, along the non-error path of the
per-box loop. -/
def twoBoxOut (c : GenCfg) (H W : ℕ) (bFirst bSecond : BBox) (l : ℤ) : TargetMaps :=
  stepBoxOut c H W (stepBoxOut c H W initMaps bFirst l (areaWeight c bFirst)) bSecond l
    (areaWeight c bSecond)

/-- The positive-region mask as claim C8 describes it: the center-shrunk
box rounded to the nearest integer grid cell and clamped to
[0, W-1] × [0, H-1], with a lower clamp at 0 on every coordinate.  This
definition follows the claim's words and is compared against `boxMask`,
which is the translation of the source. -/
def claimedMaskC8 (c : GenCfg) (H W : ℕ) (b : BBox) : ℤ → ℤ → Bool :=
  fun i j =>
    let cy1 := max 0 (min ((H : ℤ) - 1)
      (rndEven ((calcRegion (shrinkR1 c) b).y1 / (c.down_ratio : ℚ))))
    let cy2 := max 0 (min ((H : ℤ) - 1)
      (rndEven ((calcRegion (shrinkR1 c) b).y2 / (c.down_ratio : ℚ))))
    let cx1 := max 0 (min ((W : ℤ) - 1)
      (rndEven ((calcRegion (shrinkR1 c) b).x1 / (c.down_ratio : ℚ))))
    let cx2 := max 0 (min ((W : ℤ) - 1)
      (rndEven ((calcRegion (shrinkR1 c) b).x2 / (c.down_ratio : ℚ))))
    decide ((cy1 ≤ i ∧ i ≤ cy2) ∧ (cx1 ≤ j ∧ j ≤ cx2))

/-- A concrete class-aware configuration (2 foreground classes, log-free
identity transform, all-ones kernel, hm_center_ratio 0.27, center_ratio
0.2, down_ratio 4) used by concrete witnesses and counterexamples. -/
def cfgA : GenCfg := ⟨2, false, false, false, fun a => a, fun _ _ _ _ => 1, 27/100, 1/5, 4⟩

/-- A concrete configuration with `wh_area_process = norm`
(areaProcessIsNorm set, one foreground class). -/
def cfgB : GenCfg := ⟨1, false, false, true, fun a => a, fun _ _ _ _ => 1, 27/100, 1/5, 4⟩

/-- A concrete class-aware single-class configuration. -/
def cfgC : GenCfg := ⟨1, false, false, false, fun a => a, fun _ _ _ _ => 1, 27/100, 1/5, 4⟩

/-- A ground-truth box lying entirely outside a 4×4 feature grid (for
down_ratio 4): its center cell (10, 10) is off-grid, so its scratch
gaussian is never drawn and the masked gaussian mass is 0. -/
def boxFar : BBox := ⟨32, 32, 48, 48⟩

/-- A large concrete box. -/
def boxBig : BBox := ⟨0, 0, 64, 64⟩

/-- A small concrete box whose center-shrink region overlaps boxBig's. -/
def boxSmall : BBox := ⟨16, 16, 40, 40⟩

/-- A concrete box with negative coordinates. -/
def boxNeg : BBox := ⟨-40, -40, 0, 0⟩

-- Everything below this line is lemmas and theorems; all definitions are above.

lemma clipLo_of_nonneg (n : ℕ) (i : ℤ) (h0 : 0 ≤ i) (hn : i ≤ (n : ℤ)) : clipLo n i = i := by
  unfold clipLo
  rw [if_neg (by omega)]
  omega

lemma stepBox_ok_of_valid_label (c : GenCfg) (H W : ℕ) (st : TargetMaps) (b : BBox)
    (l : ℤ) (w : ℚ) (h1 : 1 ≤ l) (h2 : l ≤ (c.num_fg : ℤ)) :
    stepBox c H W st b l w = .ok (stepBoxOut c H W st b l w) := by
  have h0 : (0 : ℤ) ≤ l - 1 := by omega
  have hcast : ((l - 1).toNat : ℤ) = l - 1 := Int.toNat_of_nonneg h0
  have hti : tensorIndex c.num_fg (l - 1) = .ok (l - 1).toNat := by
    unfold tensorIndex
    rw [if_pos ⟨h0, by omega⟩]
  by_cases hag : c.wh_agnostic = true
  · have hwp : c.wh_planes = 4 := by simp [GenCfg.wh_planes, hag]
    have hti2 : tensorIndex (c.wh_planes / 4) (if c.wh_agnostic then 0 else l - 1) =
        .ok (0 : ℕ) := by
      rw [hwp, hag]
      unfold tensorIndex
      rw [if_pos (by norm_num)]
      rfl
    have hbw : boxWrite c st.box_target (boxMask c H W b) (l - 1) b =
        .ok fun ch i j =>
          if 0 ≤ ch ∧ ch < (c.wh_planes : ℤ) ∧ boxMask c H W b i j = true then bcoord b ch
          else st.box_target ch i j := by
      simp [boxWrite, hag]
    simp only [stepBox, hti, hbw, hti2]
    simp only [stepBoxOut, hag, if_true]
    refine congrArg Except.ok ?_
    refine TargetMaps.mk.injEq _ _ _ _ _ _ ▸ ?_
    refine ⟨?_, ?_, ?_⟩
    · funext ch i j
      rw [hcast]
    · funext ch i j
      have h4 : (c.wh_planes : ℤ) = 4 := by rw [hwp]; rfl
      rw [h4]
      simp only [zero_add, sub_zero]
    · funext ch i j
      norm_num
  · have hagf : c.wh_agnostic = false := by simpa using hag
    have hwp : c.wh_planes = 4 * c.num_fg := by simp [GenCfg.wh_planes, hagf]
    have hwpz : (c.wh_planes : ℤ) = 4 * (c.num_fg : ℤ) := by rw [hwp]; push_cast; ring
    have hlo : clipLo c.wh_planes (4 * (l - 1)) = 4 * (l - 1) :=
      clipLo_of_nonneg _ _ (by omega) (by omega)
    have hhi : clipLo c.wh_planes (4 * (l - 1) + 4) = 4 * (l - 1) + 4 :=
      clipLo_of_nonneg _ _ (by omega) (by omega)
    have hq : c.wh_planes / 4 = c.num_fg := by
      rw [hwp]; exact Nat.mul_div_cancel_left _ (by norm_num)
    have hti2 : tensorIndex (c.wh_planes / 4) (if c.wh_agnostic then 0 else l - 1) =
        .ok (l - 1).toNat := by
      rw [hq, hagf]
      simp only [Bool.false_eq_true, if_false]
      unfold tensorIndex
      rw [if_pos ⟨h0, by omega⟩]
    have hbw : boxWrite c st.box_target (boxMask c H W b) (l - 1) b =
        .ok fun ch i j =>
          if 4 * (l - 1) ≤ ch ∧ ch < 4 * (l - 1) + 4 ∧ boxMask c H W b i j = true then
            bcoord b (ch - 4 * (l - 1))
          else st.box_target ch i j := by
      simp only [boxWrite, hagf, Bool.false_eq_true, if_false, hlo, hhi]
      rw [if_pos (by ring)]
    simp only [stepBox, hti, hbw, hti2]
    simp only [stepBoxOut, hagf, Bool.false_eq_true, if_false]
    refine congrArg Except.ok ?_
    refine TargetMaps.mk.injEq _ _ _ _ _ _ ▸ ?_
    refine ⟨?_, rfl, ?_⟩
    · funext ch i j
      rw [hcast]
    · funext ch i j
      rw [hcast]

/-- Claim C5: `draw_truncate_gaussian` is pointwise monotone on the output
grid: for every grid, center, radii and amplitude `k`, every cell of the
result is greater than or equal to its previous value (existing values are
combined by elementwise maximum with the `k`-scaled kernel, never
decreased), and the grid is completely unchanged whenever the
boundary-clipped overlap between kernel and grid is empty on either
axis. -/
theorem c5_draw_gaussian_monotone_noop (height width : ℕ) (gaussian : ℤ → ℤ → ℚ)
    (hm : Grid) (x y h_radius w_radius : ℤ) (k : ℚ) :
    (∀ i j : ℤ,
      hm i j ≤ draw_truncate_gaussian height width gaussian hm x y h_radius w_radius k i j)
    ∧ (gaussGuard height width x y h_radius w_radius = false →
        draw_truncate_gaussian height width gaussian hm x y h_radius w_radius k = hm) := by
  constructor
  · intro i j
    unfold draw_truncate_gaussian
    by_cases hg : gaussGuard height width x y h_radius w_radius
    · simp only [hg, if_true]
      split
      · exact le_max_left _ _
      · exact le_rfl
    · simp only [Bool.not_eq_true] at hg
      simp [hg]
  · intro hg
    simp [draw_truncate_gaussian, hg]

/-- Witness for C5 at a concrete input: the center (10, 0) lies right of a
4×4 grid, the clipped overlap is empty, and the grid comes back
unchanged. -/
theorem c5_witness :
    gaussGuard 4 4 10 0 0 0 = false ∧
    draw_truncate_gaussian 4 4 (fun _ _ => 1) (fun _ _ => 0) 10 0 0 0 1 = (fun _ _ => (0 : ℚ)) :=
  ⟨by decide,
   (c5_draw_gaussian_monotone_noop 4 4 (fun _ _ => 1) (fun _ _ => 0) 10 0 0 0 1).2 (by decide)⟩

/-- Claim C4: for a box whose positive region has nonzero scratch-gaussian
mass, immediately after that box's weight write (one iteration of the
per-box loop) the weight-map values summed over the box's masked cells
equal the box's area-weight scalar — hence exactly 1 when
wh_area_process = 'norm', regardless of the box's area. -/
theorem c4_weight_sum_eq_area_weight (c : GenCfg) (H W : ℕ) (st : TargetMaps) (b : BBox)
    (l : ℤ) (h1 : 1 ≤ l) (h2 : l ≤ (c.num_fg : ℤ))
    (hS : maskSum H W (boxMask c H W b) (fakeHm c H W b) ≠ 0) :
    stepBox c H W st b l (areaWeight c b) = .ok (stepBoxOut c H W st b l (areaWeight c b))
    ∧ wmaskSum H W (boxMask c H W b)
        (fun i j => (stepBoxOut c H W st b l (areaWeight c b)).wh_weight
          (if c.wh_agnostic then 0 else l - 1) i j) = areaWeight c b
    ∧ (c.areaProcessIsNorm = true →
        wmaskSum H W (boxMask c H W b)
          (fun i j => (stepBoxOut c H W st b l (areaWeight c b)).wh_weight
            (if c.wh_agnostic then 0 else l - 1) i j) = 1) := by
  have hcell : ∀ i j : ℤ, boxMask c H W b i j = true →
      (stepBoxOut c H W st b l (areaWeight c b)).wh_weight
        (if c.wh_agnostic then 0 else l - 1) i j
      = some (fakeHm c H W b i j * areaWeight c b /
              maskSum H W (boxMask c H W b) (fakeHm c H W b)) := by
    intro i j hm
    simp only [stepBoxOut]
    rw [if_pos (And.intro (by trivial) hm)]
    simp [qdiv, hS]
  have key : wmaskSum H W (boxMask c H W b)
      (fun i j => (stepBoxOut c H W st b l (areaWeight c b)).wh_weight
        (if c.wh_agnostic then 0 else l - 1) i j) = areaWeight c b := by
    unfold wmaskSum
    have hstep : ∀ i j : ℤ,
        (if boxMask c H W b i j then
          ((stepBoxOut c H W st b l (areaWeight c b)).wh_weight
            (if c.wh_agnostic then 0 else l - 1) i j).getD 0
         else 0)
        = (if boxMask c H W b i j then fakeHm c H W b i j else 0) *
            (areaWeight c b / maskSum H W (boxMask c H W b) (fakeHm c H W b)) := by
      intro i j
      by_cases hm : boxMask c H W b i j = true
      · rw [if_pos hm, if_pos hm, hcell i j hm]
        simp [mul_div_assoc]
      · rw [if_neg hm, if_neg hm, zero_mul]
    calc (∑ i ∈ Finset.range H, ∑ j ∈ Finset.range W,
            if boxMask c H W b (i : ℤ) (j : ℤ) then
              ((stepBoxOut c H W st b l (areaWeight c b)).wh_weight
                (if c.wh_agnostic then 0 else l - 1) (i : ℤ) (j : ℤ)).getD 0
            else 0)
        = ∑ i ∈ Finset.range H, ∑ j ∈ Finset.range W,
            (if boxMask c H W b (i : ℤ) (j : ℤ) then fakeHm c H W b (i : ℤ) (j : ℤ) else 0) *
              (areaWeight c b / maskSum H W (boxMask c H W b) (fakeHm c H W b)) := by
          exact Finset.sum_congr rfl fun i _ => Finset.sum_congr rfl fun j _ => hstep i j
      _ = (∑ i ∈ Finset.range H, ∑ j ∈ Finset.range W,
            if boxMask c H W b (i : ℤ) (j : ℤ) then fakeHm c H W b (i : ℤ) (j : ℤ) else 0) *
            (areaWeight c b / maskSum H W (boxMask c H W b) (fakeHm c H W b)) := by
          rw [Finset.sum_mul]
          exact Finset.sum_congr rfl fun i _ => (Finset.sum_mul ..).symm
      _ = maskSum H W (boxMask c H W b) (fakeHm c H W b) *
            (areaWeight c b / maskSum H W (boxMask c H W b) (fakeHm c H W b)) := rfl
      _ = areaWeight c b := by
          rw [mul_comm]
          exact div_mul_cancel₀ _ hS
  refine ⟨stepBox_ok_of_valid_label c H W st b l (areaWeight c b) h1 h2, key, fun hn => ?_⟩
  rw [key]
  simp [areaWeight, hn]

/-- Witness for C4 at a concrete input: one box on an 8×8 grid under the
`norm` configuration `cfgB`; its masked gaussian mass is 1 ≠ 0 and the
masked weight sum equals the area-weight scalar 1. -/
theorem c4_witness :
    ((1 : ℤ) ≤ 1 ∧ (1 : ℤ) ≤ (cfgB.num_fg : ℤ)
      ∧ maskSum 8 8 (boxMask cfgB 8 8 boxSmall) (fakeHm cfgB 8 8 boxSmall) ≠ 0)
    ∧ wmaskSum 8 8 (boxMask cfgB 8 8 boxSmall)
        (fun i j => (stepBoxOut cfgB 8 8 initMaps boxSmall 1 (areaWeight cfgB boxSmall)).wh_weight
          (if cfgB.wh_agnostic then 0 else 1 - 1) i j) = areaWeight cfgB boxSmall :=
  ⟨⟨by decide, by decide, by with_unfolding_all decide⟩,
   (c4_weight_sum_eq_area_weight cfgB 8 8 initMaps boxSmall 1 (by decide) (by decide)
     (by with_unfolding_all decide)).2.1⟩

lemma sortDescBy_pair_of_lt (c : GenCfg) (bA bB : BBox) (l : ℤ)
    (hKey : areaKey c bB < areaKey c bA) :
    sortDescBy (fun p : BBox × ℤ => areaKey c p.1) [(bA, l), (bB, l)] = [(bA, l), (bB, l)]
    ∧ sortDescBy (fun p : BBox × ℤ => areaKey c p.1) [(bB, l), (bA, l)] = [(bA, l), (bB, l)] := by
  constructor
  · simp only [sortDescBy, insertDescBy]
    rw [if_pos hKey]
  · simp only [sortDescBy, insertDescBy]
    rw [if_neg (not_lt.mpr hKey.le)]

/-- Claim C3: two boxes with distinct area metrics are processed in
descending metric order, so at every cell where both positive regions
overlap, the final box-target value (in the channel slice both boxes write
to) is the smaller-metric box's coordinates — for either input order of
the two boxes. -/
theorem c3_smaller_box_wins_overlap (c : GenCfg) (H W : ℕ) (bA bB : BBox) (l : ℤ)
    (h1 : 1 ≤ l) (h2 : l ≤ (c.num_fg : ℤ)) (hKey : areaKey c bB < areaKey c bA) :
    (target_single_image c [bA, bB] [l, l] H W = .ok (twoBoxOut c H W bA bB l)
      ∧ target_single_image c [bB, bA] [l, l] H W = .ok (twoBoxOut c H W bA bB l))
    ∧ ∀ i j d : ℤ, 0 ≤ d → d < 4 →
        boxMask c H W bA i j = true → boxMask c H W bB i j = true →
        (twoBoxOut c H W bA bB l).box_target
          ((if c.wh_agnostic then 0 else 4 * (l - 1)) + d) i j = bcoord bB d := by
  have e1 := stepBox_ok_of_valid_label c H W initMaps bA l (areaWeight c bA) h1 h2
  have e2 := stepBox_ok_of_valid_label c H W
    (stepBoxOut c H W initMaps bA l (areaWeight c bA)) bB l (areaWeight c bB) h1 h2
  have hrun : processBoxes c H W initMaps
      [(bA, l, areaWeight c bA), (bB, l, areaWeight c bB)] = .ok (twoBoxOut c H W bA bB l) := by
    simp only [processBoxes, e1, e2, twoBoxOut]
  constructor
  · constructor
    · simp only [target_single_image]
      rw [show ([bA, bB].zip [l, l]) = [(bA, l), (bB, l)] from rfl,
        (sortDescBy_pair_of_lt c bA bB l hKey).1]
      exact hrun
    · simp only [target_single_image]
      rw [show ([bB, bA].zip [l, l]) = [(bB, l), (bA, l)] from rfl,
        (sortDescBy_pair_of_lt c bA bB l hKey).2]
      exact hrun
  · intro i j d hd0 hd4 _hmA hmB
    show (stepBoxOut c H W (stepBoxOut c H W initMaps bA l (areaWeight c bA)) bB l
      (areaWeight c bB)).box_target ((if c.wh_agnostic then 0 else 4 * (l - 1)) + d) i j
      = bcoord bB d
    simp only [stepBoxOut]
    rw [if_pos ⟨le_add_of_nonneg_right hd0, by omega, hmB⟩]
    congr 1
    ring

/-- Witness for C3 at a concrete input: boxBig (area 4096) and boxSmall
(area 576) both of class 1, whose center-shrink masks coincide on cell
(6, 6) of an 8×8 grid; the final box-target left coordinate there is
boxSmall's. -/
theorem c3_witness :
    ((1 : ℤ) ≤ 1 ∧ (1 : ℤ) ≤ (cfgA.num_fg : ℤ)
      ∧ areaKey cfgA boxSmall < areaKey cfgA boxBig
      ∧ boxMask cfgA 8 8 boxBig 6 6 = true ∧ boxMask cfgA 8 8 boxSmall 6 6 = true)
    ∧ (twoBoxOut cfgA 8 8 boxBig boxSmall 1).box_target
        ((if cfgA.wh_agnostic then 0 else 4 * (1 - 1)) + 0) 6 6 = bcoord boxSmall 0 :=
  ⟨⟨by decide, by decide, by with_unfolding_all decide,
    by with_unfolding_all decide, by with_unfolding_all decide⟩,
   (c3_smaller_box_wins_overlap cfgA 8 8 boxBig boxSmall 1 (by decide) (by decide)
      (by with_unfolding_all decide)).2 6 6 0 (by decide) (by decide)
      (by with_unfolding_all decide) (by with_unfolding_all decide)⟩

/-- Claim C1 (the code at the failing input): for the box (32,32,48,48) on
a 4×4 grid the positive region is the nonempty cell {(3,3)} but the
scratch gaussian is a no-op (center off-grid), so the masked gaussian mass
ct_div is 0 — and the weight write is NOT skipped: the per-box step still
runs the division by ct_div = 0 and stores the non-finite result into the
box's weight cell, instead of leaving it at its previous value 0. -/
theorem c1_s_zero_write_not_skipped :
    maskSum 4 4 (boxMask cfgC 4 4 boxFar) (fakeHm cfgC 4 4 boxFar) = 0
    ∧ boxMask cfgC 4 4 boxFar 3 3 = true
    ∧ stepBox cfgC 4 4 initMaps boxFar 1 (areaWeight cfgC boxFar)
        = .ok (stepBoxOut cfgC 4 4 initMaps boxFar 1 (areaWeight cfgC boxFar))
    ∧ (stepBoxOut cfgC 4 4 initMaps boxFar 1 (areaWeight cfgC boxFar)).wh_weight 0 3 3 = none
    ∧ initMaps.wh_weight 0 3 3 = some 0 :=
  ⟨by with_unfolding_all decide, by with_unfolding_all decide,
   stepBox_ok_of_valid_label cfgC 4 4 initMaps boxFar 1 _ (by decide) (by decide),
   by with_unfolding_all decide, rfl⟩

/-- Counterexample to claim C10: with two foreground classes (per-class
regression) and a single box carrying the background label 0, target
generation raises a shape-mismatch error — the box-target channel slice
(-4:0) computed from index 0 - 1 = -1 is empty, so the write does not go
to the last foreground channel and an error IS raised. -/
theorem c10_counterexample :
    target_single_image cfgA [boxSmall] [0] 4 4 =
      .error "shape mismatch in box_target write" := rfl

/-- Claim C10 (amended): the channel index of a box is label - 1.  For a
label in [1, num_fg] the index is in range and the per-box step succeeds,
writing through that zero-based channel; for the background label 0 the
index -1 wraps to the last foreground channel for plain tensor indexing
(as in the heatmap write), but the per-class box-target channel slice
(4·(-1) : 4·(-1)+4) = (-4 : 0) is empty, so the broadcast write fails and
the step raises a shape-mismatch error instead of writing anywhere. -/
theorem c10_label_channel_amended (c : GenCfg) (H W : ℕ) (st : TargetMaps) (b : BBox)
    (w : ℚ) (l : ℤ) (hag : c.wh_agnostic = false) (hfg : 1 ≤ c.num_fg) :
    (1 ≤ l → l ≤ (c.num_fg : ℤ) →
      tensorIndex c.num_fg (l - 1) = .ok (l - 1).toNat
      ∧ stepBox c H W st b l w = .ok (stepBoxOut c H W st b l w))
    ∧ (l = 0 →
      tensorIndex c.num_fg (l - 1) = .ok (c.num_fg - 1)
      ∧ stepBox c H W st b l w = .error "shape mismatch in box_target write") := by
  constructor
  · intro hl1 hl2
    refine ⟨?_, stepBox_ok_of_valid_label c H W st b l w hl1 hl2⟩
    unfold tensorIndex
    rw [if_pos ⟨by omega, by omega⟩]
  · intro hl0
    subst hl0
    have hwp : c.wh_planes = 4 * c.num_fg := by simp [GenCfg.wh_planes, hag]
    have hti0 : tensorIndex c.num_fg ((0 : ℤ) - 1) = .ok (c.num_fg - 1) := by
      unfold tensorIndex
      rw [if_neg (by omega), if_pos ⟨by omega, by omega⟩]
      congr 1
      omega
    have hlo : clipLo c.wh_planes (4 * ((0 : ℤ) - 1)) = (c.wh_planes : ℤ) - 4 := by
      have h4 : (4 : ℤ) ≤ (c.wh_planes : ℤ) := by rw [hwp]; push_cast; omega
      unfold clipLo
      rw [if_pos (by norm_num)]
      omega
    have hhi : clipLo c.wh_planes (4 * ((0 : ℤ) - 1) + 4) = 0 := by
      unfold clipLo
      rw [if_neg (by norm_num)]
      simp
    have hbw : boxWrite c st.box_target (boxMask c H W b) ((0 : ℤ) - 1) b =
        .error "shape mismatch in box_target write" := by
      simp only [boxWrite, hag, Bool.false_eq_true, if_false, hlo, hhi]
      rw [if_neg (by rw [hwp]; push_cast; omega)]
    refine ⟨hti0, ?_⟩
    simp only [stepBox, hti0, hbw]

/-- Witness for the amended C10 at concrete inputs: under cfgA (2
foreground classes, per-class regression), label 0 wraps the plain tensor
index to channel 1 but makes the per-box step raise, while label 1 makes
it succeed. -/
theorem c10_witness :
    (cfgA.wh_agnostic = false ∧ 1 ≤ cfgA.num_fg)
    ∧ (tensorIndex cfgA.num_fg ((0 : ℤ) - 1) = .ok (cfgA.num_fg - 1)
       ∧ stepBox cfgA 4 4 initMaps boxSmall 0 1 = .error "shape mismatch in box_target write")
    ∧ (tensorIndex cfgA.num_fg ((1 : ℤ) - 1) = .ok ((1 : ℤ) - 1).toNat
       ∧ stepBox cfgA 4 4 initMaps boxSmall 1 1 = .ok (stepBoxOut cfgA 4 4 initMaps boxSmall 1 1)) :=
  ⟨⟨rfl, by decide⟩,
   (c10_label_channel_amended cfgA 4 4 initMaps boxSmall 1 0 rfl (by decide)).2 rfl,
   (c10_label_channel_amended cfgA 4 4 initMaps boxSmall 1 1 rfl (by decide)).1 (by decide)
     (by decide)⟩

lemma rndEven_nonneg (q : ℚ) (h : 0 ≤ q) : 0 ≤ rndEven q := by
  have hf : 0 ≤ ⌊q⌋ := Int.floor_nonneg.mpr h
  unfold rndEven
  split
  · exact hf
  · split
    · omega
    · split <;> omega

/-- Counterexample to claim C8: the mask coordinates are not clamped at
the lower bound 0.  For the box (-40,-40,0,0) on an 8×8 grid the rounded
center-shrink region is (-6,-6,-4,-4); the source clamps only at the upper
bound, and the negative Python slice bounds wrap around, marking cell
(2, 2) — while the mask described by the claim (clamped to [0,7]×[0,7])
marks only cell (0, 0). -/
theorem c8_counterexample :
    cfgC.wh_heatmap = false
    ∧ boxMask cfgC 8 8 boxNeg 2 2 = true
    ∧ claimedMaskC8 cfgC 8 8 boxNeg 2 2 = false :=
  ⟨rfl, by with_unfolding_all decide, by with_unfolding_all decide⟩

/-- Claim C8 (amended): with wh_heatmap disabled, the positive-region mask
is the center-shrunk box rounded to the nearest grid cell and clamped at
the upper bounds W-1 (x) and H-1 (y) only; there is no lower-bound clamp
in the code, but for boxes with nonnegative coordinates (and a shrink
ratio in [0, 1]) the rounded coordinates are nonnegative anyway, so the
mask coincides with the claim's [0,W-1]×[0,H-1]-clamped description. -/
theorem c8_mask_clamp_amended (c : GenCfg) (H W : ℕ) (b : BBox) (i j : ℤ)
    (hhm : c.wh_heatmap = false) (hH : 1 ≤ H) (hW : 1 ≤ W)
    (hr0 : 0 ≤ c.center_ratio) (hr1 : c.center_ratio ≤ 1)
    (hx1 : 0 ≤ b.x1) (hy1 : 0 ≤ b.y1) (hx12 : b.x1 ≤ b.x2) (hy12 : b.y1 ≤ b.y2) :
    boxMask c H W b i j = claimedMaskC8 c H W b i j := by
  have hs0 : 0 ≤ shrinkR1 c := by unfold shrinkR1; linarith
  have hs1 : shrinkR1 c ≤ 1 := by unfold shrinkR1; linarith
  have hd : (0 : ℚ) ≤ (c.down_ratio : ℚ) := by positivity
  have hx2 : 0 ≤ b.x2 := hx1.trans hx12
  have hy2 : 0 ≤ b.y2 := hy1.trans hy12
  have hgx1 : 0 ≤ (calcRegion (shrinkR1 c) b).x1 :=
    add_nonneg (mul_nonneg (by linarith) hx1) (mul_nonneg hs0 hx2)
  have hgy1 : 0 ≤ (calcRegion (shrinkR1 c) b).y1 :=
    add_nonneg (mul_nonneg (by linarith) hy1) (mul_nonneg hs0 hy2)
  have hgx2 : 0 ≤ (calcRegion (shrinkR1 c) b).x2 :=
    add_nonneg (mul_nonneg hs0 hx1) (mul_nonneg (by linarith) hx2)
  have hgy2 : 0 ≤ (calcRegion (shrinkR1 c) b).y2 :=
    add_nonneg (mul_nonneg hs0 hy1) (mul_nonneg (by linarith) hy2)
  have hrx1 : 0 ≤ rndEven ((calcRegion (shrinkR1 c) b).x1 / (c.down_ratio : ℚ)) :=
    rndEven_nonneg _ (div_nonneg hgx1 hd)
  have hry1 : 0 ≤ rndEven ((calcRegion (shrinkR1 c) b).y1 / (c.down_ratio : ℚ)) :=
    rndEven_nonneg _ (div_nonneg hgy1 hd)
  have hrx2 : 0 ≤ rndEven ((calcRegion (shrinkR1 c) b).x2 / (c.down_ratio : ℚ)) :=
    rndEven_nonneg _ (div_nonneg hgx2 hd)
  have hry2 : 0 ≤ rndEven ((calcRegion (shrinkR1 c) b).y2 / (c.down_ratio : ℚ)) :=
    rndEven_nonneg _ (div_nonneg hgy2 hd)
  simp only [boxMask, hhm, Bool.false_eq_true, if_false, regionMask, claimedMaskC8,
    inSliceB, ctrX1, ctrX2, ctrY1, ctrY2]
  rw [clipLo_of_nonneg H _ (by omega) (by omega), clipLo_of_nonneg H _ (by omega) (by omega),
    clipLo_of_nonneg W _ (by omega) (by omega), clipLo_of_nonneg W _ (by omega) (by omega)]
  rw [← Bool.decide_and]
  exact decide_eq_decide.mpr (by omega)

/-- Witness for the amended C8 at a concrete nonnegative box: the source
mask and the claim's clamped description agree at cell (6, 6). -/
theorem c8_witness :
    (cfgC.wh_heatmap = false ∧ 0 ≤ cfgC.center_ratio ∧ cfgC.center_ratio ≤ 1
      ∧ 0 ≤ boxSmall.x1 ∧ 0 ≤ boxSmall.y1 ∧ boxSmall.x1 ≤ boxSmall.x2
      ∧ boxSmall.y1 ≤ boxSmall.y2)
    ∧ boxMask cfgC 8 8 boxSmall 6 6 = claimedMaskC8 cfgC 8 8 boxSmall 6 6 :=
  ⟨⟨rfl, by with_unfolding_all decide, by with_unfolding_all decide,
    by with_unfolding_all decide, by with_unfolding_all decide,
    by with_unfolding_all decide, by with_unfolding_all decide⟩,
   c8_mask_clamp_amended cfgC 8 8 boxSmall 6 6 rfl (by decide) (by decide)
     (by with_unfolding_all decide) (by with_unfolding_all decide)
     (by with_unfolding_all decide) (by with_unfolding_all decide)
     (by with_unfolding_all decide) (by with_unfolding_all decide)⟩

/-- Claim C7: for an image with zero ground-truth boxes, target generation
returns the freshly allocated maps: all-zero heatmap, box_target all -1,
all-zero weight map (the per-box loop body never runs). -/
theorem c7_empty_image_targets (c : GenCfg) (H W : ℕ) :
    target_single_image c [] [] H W = .ok initMaps
    ∧ (∀ ch i j : ℤ, initMaps.heatmap ch i j = 0)
    ∧ (∀ ch i j : ℤ, initMaps.box_target ch i j = -1)
    ∧ (∀ ch i j : ℤ, initMaps.wh_weight ch i j = some 0) :=
  ⟨rfl, fun _ _ _ => rfl, fun _ _ _ => rfl, fun _ _ _ => rfl⟩

/-- Claim C9: batched target generation reads only the first image's
pad_shape: every per-image map is built with the first meta's
(pad_h / down_ratio, pad_w / down_ratio), and replacing the metas of all
other images changes nothing. -/
theorem c9_feat_shape_from_first_meta (c : GenCfg) (gtb : List (List BBox))
    (gtl : List (List ℤ)) (m : ImgMeta) (rest rest' : List ImgMeta) :
    targetGeneratorCall c gtb gtl (m :: rest) = targetGeneratorCall c gtb gtl (m :: rest')
    ∧ targetGeneratorCall c gtb gtl (m :: rest) =
        (gtb.zip gtl).mapM (fun p =>
          target_single_image c p.1 p.2 (m.pad_h / c.down_ratio) (m.pad_w / c.down_ratio)) :=
  ⟨rfl, rfl⟩

lemma lossBaseLocSeq_some (down : ℕ) (g0 : BaseLoc) :
    ∀ (seq : List (ℕ × ℕ)) (g : BaseLoc), g ∈ lossBaseLocSeq down (some g0) seq → g = g0 := by
  intro seq
  induction seq with
  | nil => intro g hg; simp [lossBaseLocSeq] at hg
  | cons p rest ih =>
    intro g hg
    obtain ⟨H, W⟩ := p
    simp only [lossBaseLocSeq, lossBaseLoc, List.mem_cons] at hg
    rcases hg with h | h
    · exact h
    · exact ih g h

/-- Counterexample to claim C2: starting from an empty cache, a first loss
invocation at shape (2, 3) followed by one at shape (5, 7) makes the
second invocation use the grid built for (2, 3) — the cache is keyed on
nothing, so a grid built for one shape is reused for a different shape. -/
theorem c2_counterexample :
    lossBaseLocSeq 4 none [(2, 3), (5, 7)] = [buildBaseLoc 4 2 3, buildBaseLoc 4 2 3]
    ∧ (buildBaseLoc 4 2 3).rows ≠ 5 ∧ (buildBaseLoc 4 2 3).cols ≠ 7 := by
  decide

/-- Claim C2 (amended): the cached base-location grid is built on the
first invocation from that invocation's (H, W) and the configured
down_ratio, and is then reused unconditionally by every later invocation,
even when the predicted heatmap's (H, W) changes. -/
theorem c2_base_loc_cache_amended (down H W : ℕ) (rest : List (ℕ × ℕ)) (g : BaseLoc)
    (hg : g ∈ lossBaseLocSeq down none ((H, W) :: rest)) : g = buildBaseLoc down H W := by
  simp only [lossBaseLocSeq, lossBaseLoc, List.mem_cons] at hg
  rcases hg with h | h
  · exact h
  · exact lossBaseLocSeq_some down (buildBaseLoc down H W) rest g h

/-- Witness for the amended C2 at a concrete call sequence. -/
theorem c2_witness :
    buildBaseLoc 4 2 3 ∈ lossBaseLocSeq 4 none [(2, 3), (5, 7)]
    ∧ buildBaseLoc 4 2 3 = buildBaseLoc 4 2 3 :=
  ⟨by decide, c2_base_loc_cache_amended 4 2 3 [(5, 7)] (buildBaseLoc 4 2 3) (by decide)⟩

lemma length_insertDescBy {α : Type} (key : α → ℚ) (x : α) (l : List α) :
    (insertDescBy key x l).length = l.length + 1 := by
  induction l with
  | nil => rfl
  | cons y ys ih =>
    simp only [insertDescBy]
    split
    · simp
    · simp [ih]

lemma length_sortDescBy {α : Type} (key : α → ℚ) (l : List α) :
    (sortDescBy key l).length = l.length := by
  induction l with
  | nil => rfl
  | cons x xs ih =>
    simp only [sortDescBy]
    rw [length_insertDescBy, ih]
    rfl

lemma mem_insertDescBy {α : Type} (key : α → ℚ) (x z : α) (l : List α) :
    z ∈ insertDescBy key x l ↔ z = x ∨ z ∈ l := by
  induction l with
  | nil => simp [insertDescBy]
  | cons y ys ih =>
    simp only [insertDescBy]
    split
    · simp [List.mem_cons]
    · simp [List.mem_cons, ih]
      tauto

lemma mem_sortDescBy {α : Type} (key : α → ℚ) (z : α) (l : List α) :
    z ∈ sortDescBy key l ↔ z ∈ l := by
  induction l with
  | nil => simp [sortDescBy]
  | cons x xs ih => simp [sortDescBy, mem_insertDescBy, ih]

lemma pairwise_insertDescBy {α : Type} (key : α → ℚ) (x : α) (l : List α)
    (h : l.Pairwise (fun a b => key b ≤ key a)) :
    (insertDescBy key x l).Pairwise (fun a b => key b ≤ key a) := by
  induction l with
  | nil => simp [insertDescBy]
  | cons y ys ih =>
    rw [List.pairwise_cons] at h
    obtain ⟨hy, hys⟩ := h
    simp only [insertDescBy]
    split
    · rename_i hlt
      rw [List.pairwise_cons]
      refine ⟨?_, List.pairwise_cons.mpr ⟨hy, hys⟩⟩
      intro z hz
      rcases List.mem_cons.mp hz with rfl | hz'
      · exact hlt.le
      · exact (hy z hz').trans hlt.le
    · rename_i hnlt
      rw [List.pairwise_cons]
      refine ⟨?_, ih hys⟩
      intro z hz
      rcases (mem_insertDescBy key x z ys).mp hz with rfl | hz'
      · exact not_lt.mp hnlt
      · exact hy z hz'

lemma pairwise_sortDescBy {α : Type} (key : α → ℚ) (l : List α) :
    (sortDescBy key l).Pairwise (fun a b => key b ≤ key a) := by
  induction l with
  | nil => simp [sortDescBy]
  | cons x xs ih => exact pairwise_insertDescBy key x _ ih

lemma topkPairs_length (l : List ℚ) (k : ℕ) (h : k ≤ l.length) :
    (topkPairs l k).length = k := by
  unfold topkPairs
  rw [List.length_take, length_sortDescBy, List.enum_length]
  omega

lemma topkPairs_pairwise (l : List ℚ) (k : ℕ) :
    (topkPairs l k).Pairwise (fun a b => b.2 ≤ a.2) :=
  (pairwise_sortDescBy (fun p => p.2) l.enum).sublist (List.take_sublist _ _)

lemma topkPairs_mem (l : List ℚ) (k : ℕ) (p : ℕ × ℚ) (h : p ∈ topkPairs l k) :
    l.get? p.1 = some p.2 := by
  have h1 : p ∈ sortDescBy (fun q : ℕ × ℚ => q.2) l.enum := List.take_subset _ _ h
  have h2 : p ∈ l.enum := (mem_sortDescBy _ _ _).mp h1
  exact List.mem_enum_iff_get?.mp h2

lemma flatten_length_uniform {α : Type} (k : ℕ) :
    ∀ (L : List (List α)), (∀ l ∈ L, l.length = k) → L.flatten.length = L.length * k := by
  intro L
  induction L with
  | nil => simp
  | cons x xs ih =>
    intro hlen
    rw [List.flatten_cons, List.length_append,
      ih (fun l hl => hlen l (List.mem_cons_of_mem _ hl)),
      hlen x (List.mem_cons_self x xs), List.length_cons, Nat.succ_mul]
    omega

lemma flatten_get?_uniform {α : Type} (k : ℕ) (hk : 0 < k) :
    ∀ (L : List (List α)), (∀ l ∈ L, l.length = k) → ∀ i, i < L.length * k →
      L.flatten.get? i = (L.get? (i / k)).bind (fun l => l.get? (i % k)) := by
  intro L
  induction L with
  | nil => intro _ i hi; simp at hi
  | cons x xs ih =>
    intro hlen i hi
    have hx : x.length = k := hlen x (List.mem_cons_self x xs)
    by_cases hik : i < k
    · rw [List.flatten_cons, List.get?_append (by omega)]
      rw [Nat.div_eq_of_lt hik, Nat.mod_eq_of_lt hik]
      rfl
    · push_neg at hik
      obtain ⟨j, rfl⟩ : ∃ j, i = j + k := ⟨i - k, by omega⟩
      rw [List.length_cons, Nat.succ_mul] at hi
      rw [List.flatten_cons, List.get?_append_right (by omega), hx, Nat.add_sub_cancel]
      rw [ih (fun l hl => hlen l (List.mem_cons_of_mem _ hl)) j (by omega)]
      rw [Nat.add_div_right _ hk, Nat.add_mod_right]
      rfl

lemma ttfPerCls_length_mem (scores : List (List ℚ)) (hw k : ℕ)
    (hlen : ∀ cl ∈ scores, cl.length = hw) (hkle : k ≤ hw) :
    ∀ pc ∈ ttfPerCls scores hw k, pc.length = k := by
  intro pc hpc
  obtain ⟨cl, hcl, rfl⟩ := List.mem_map.mp hpc
  rw [List.length_map, topkPairs_length cl k (by rw [hlen cl hcl]; exact hkle)]

lemma ttfFlatVals_length (scores : List (List ℚ)) (hw k : ℕ)
    (hlen : ∀ cl ∈ scores, cl.length = hw) (hkle : k ≤ hw) :
    (ttfFlatVals scores hw k).length = scores.length * k := by
  unfold ttfFlatVals
  rw [flatten_length_uniform k _ ?_, List.length_map]
  · unfold ttfPerCls
    rw [List.length_map]
  · intro l hl
    obtain ⟨pc, hpc, rfl⟩ := List.mem_map.mp hl
    rw [List.length_map]
    exact ttfPerCls_length_mem scores hw k hlen hkle pc hpc

/-- Claim C6: the two-stage top-k extraction first selects the top k cells
within each class, then the global top k among those per-class candidates:
under the stated size conditions it returns exactly k candidates with
scores in non-increasing order, and every returned candidate (score,
index, class, y, x) is one of its class's per-class top-k cells with
y = index / width and x = index % width. -/
theorem c6_two_stage_topk (scores : List (List ℚ)) (hw width k : ℕ)
    (hcat : scores ≠ []) (hlen : ∀ cl ∈ scores, cl.length = hw)
    (hk : 0 < k) (hkle : k ≤ hw) :
    (ttfTopk scores hw width k).length = k
    ∧ (ttfTopk scores hw width k).Pairwise (fun a b => b.1 ≤ a.1)
    ∧ ∀ e ∈ ttfTopk scores hw width k, ∃ cl, scores.get? e.2.2.1 = some cl
        ∧ (e.2.1, e.1) ∈ (topkPairs cl k).map (fun p => (p.1 % hw, p.2))
        ∧ e.2.2.2.1 = e.2.1 / width ∧ e.2.2.2.2 = e.2.1 % width := by
  have hscat : 0 < scores.length := List.length_pos.mpr hcat
  have hFV : (ttfFlatVals scores hw k).length = scores.length * k :=
    ttfFlatVals_length scores hw k hlen hkle
  have hkFV : k ≤ (ttfFlatVals scores hw k).length := by
    rw [hFV]
    exact Nat.le_mul_of_pos_left k hscat
  refine ⟨?_, ?_, ?_⟩
  · rw [ttfTopk, List.length_map, topkPairs_length _ _ hkFV]
  · exact (topkPairs_pairwise (ttfFlatVals scores hw k) k).map _ (fun a b h => h)
  · intro e he
    obtain ⟨p, hp, rfl⟩ := List.mem_map.mp he
    have hget : (ttfFlatVals scores hw k).get? p.1 = some p.2 :=
      topkPairs_mem _ _ _ hp
    have hlt : p.1 < (ttfFlatVals scores hw k).length := by
      rcases List.get?_eq_some.mp hget with ⟨h, _⟩
      exact h
    rw [hFV] at hlt
    have hcls : p.1 / k < scores.length :=
      Nat.div_lt_of_lt_mul (Nat.mul_comm scores.length k ▸ hlt)
    obtain ⟨cl, hcl⟩ : ∃ cl, scores.get? (p.1 / k) = some cl := by
      rcases List.get?_eq_some.mpr ⟨hcls, rfl⟩ with h
      exact ⟨_, h⟩
    have hpcget : (ttfPerCls scores hw k).get? (p.1 / k) =
        some ((topkPairs cl k).map (fun q => (q.1 % hw, q.2))) := by
      unfold ttfPerCls
      rw [List.get?_map, hcl]
      rfl
    have hval : (ttfFlatVals scores hw k).get? p.1 =
        ((((topkPairs cl k).map (fun q => (q.1 % hw, q.2))).map Prod.snd).get? (p.1 % k)) := by
      unfold ttfFlatVals
      rw [flatten_get?_uniform k hk _ ?_ p.1 ?_]
      · rw [List.get?_map, hpcget]
        rfl
      · intro l hl
        obtain ⟨pc, hpc, rfl⟩ := List.mem_map.mp hl
        rw [List.length_map]
        exact ttfPerCls_length_mem scores hw k hlen hkle pc hpc
      · rw [List.length_map]
        unfold ttfPerCls
        rw [List.length_map]
        exact hlt
    have hind : (ttfFlatInds scores hw k).get? p.1 =
        ((((topkPairs cl k).map (fun q => (q.1 % hw, q.2))).map Prod.fst).get? (p.1 % k)) := by
      unfold ttfFlatInds
      rw [flatten_get?_uniform k hk _ ?_ p.1 ?_]
      · rw [List.get?_map, hpcget]
        rfl
      · intro l hl
        obtain ⟨pc, hpc, rfl⟩ := List.mem_map.mp hl
        rw [List.length_map]
        exact ttfPerCls_length_mem scores hw k hlen hkle pc hpc
      · rw [List.length_map]
        unfold ttfPerCls
        rw [List.length_map]
        exact hlt
    rw [hget, List.get?_map] at hval
    obtain ⟨q, hq, hq2⟩ := Option.map_eq_some'.mp hval.symm
    rw [List.get?_map, hq] at hind
    have hqmem : q ∈ (topkPairs cl k).map (fun r => (r.1 % hw, r.2)) := List.get?_mem hq
    refine ⟨cl, hcl, ?_, ?_, ?_⟩
    · have : ((ttfFlatInds scores hw k).get? p.1).getD 0 = q.1 := by
        rw [hind]
        rfl
      rw [this, ← hq2]
      exact hqmem
    · rfl
    · rfl

/-- Witness for C6 at a concrete input: two classes over a 1×2 grid with
scores [[1, 0], [2, 3]] and k = 1. -/
theorem c6_witness :
    (([[(1 : ℚ), 0], [2, 3]] : List (List ℚ)) ≠ []
      ∧ (∀ cl ∈ ([[(1 : ℚ), 0], [2, 3]] : List (List ℚ)), cl.length = 2)
      ∧ 0 < 1 ∧ 1 ≤ 2)
    ∧ ((ttfTopk [[(1 : ℚ), 0], [2, 3]] 2 2 1).length = 1
      ∧ (ttfTopk [[(1 : ℚ), 0], [2, 3]] 2 2 1).Pairwise (fun a b => b.1 ≤ a.1)
      ∧ ∀ e ∈ ttfTopk [[(1 : ℚ), 0], [2, 3]] 2 2 1, ∃ cl,
          ([[(1 : ℚ), 0], [2, 3]] : List (List ℚ)).get? e.2.2.1 = some cl
          ∧ (e.2.1, e.1) ∈ (topkPairs cl 1).map (fun p => (p.1 % 2, p.2))
          ∧ e.2.2.2.1 = e.2.1 / 2 ∧ e.2.2.2.2 = e.2.1 % 2) :=
  ⟨⟨by decide, by decide, by decide, by decide⟩,
   c6_two_stage_topk [[(1 : ℚ), 0], [2, 3]] 2 2 1 (by decide) (by decide) (by decide)
     (by decide)⟩

end TTFNet
